import Mathlib

/-!
Verification of the trading-core repository: a shallow embedding, in Lean 4,
of the numeric analysis routines of the repository (market analyzer signal
conditions, RSI, MACD, Bollinger bands, take-profit and stop-loss pricing,
volatility, trend and market-sentiment aggregation), together with theorems
settling the specification claims about them.

Conventions of the embedding:
* pandas/NumPy floating-point values are modelled by the type `PF` below
  (finite rational, positive or negative infinity, or NaN); a missing value
  (NaN) in a column is `Option.none` when only finite-or-missing values can
  occur at that place in the code.
* pandas Series become `List (Option ℚ)` (index order preserved); DataFrames
  become structures whose fields are the columns, an absent column being
  `none`.
* Rolling windows use the pandas default `min_periods = window`: the result
  is defined only when the full window is present and NaN-free.
* Dictionary parameter lookups `params.get(key, default)` become getter
  functions on a structure of optional fields, returning the default when
  the field is `none`.
-/

namespace TradingCore

/-! ## Floating-point value model -/

/-- Model of an IEEE floating-point value as used by pandas/NumPy in the
repository: a finite rational, an infinity, or NaN.  Negative zero is
identified with zero, which is harmless for the operations the code
performs. -/
inductive PF where
  | nan : PF
  | pinf : PF
  | ninf : PF
  | fin : ℚ → PF
deriving DecidableEq, Repr

namespace PF

/-- Addition on the float model (IEEE semantics: NaN propagates, opposite
infinities give NaN). -/
def add : PF → PF → PF
  | nan, _ => nan
  | _, nan => nan
  | pinf, ninf => nan
  | ninf, pinf => nan
  | pinf, _ => pinf
  | _, pinf => pinf
  | ninf, _ => ninf
  | _, ninf => ninf
  | fin a, fin b => fin (a + b)

/-- Negation on the float model. -/
def neg : PF → PF
  | nan => nan
  | pinf => ninf
  | ninf => pinf
  | fin a => fin (-a)

/-- Subtraction on the float model. -/
def sub (a b : PF) : PF := add a (neg b)

/-- Division on the float model (IEEE semantics: x/0 is a signed infinity
for x nonzero, 0/0 is NaN, finite/infinite is 0, infinite/infinite is
NaN). -/
def div : PF → PF → PF
  | nan, _ => nan
  | _, nan => nan
  | pinf, pinf => nan
  | pinf, ninf => nan
  | ninf, pinf => nan
  | ninf, ninf => nan
  | pinf, fin b => if 0 ≤ b then pinf else ninf
  | ninf, fin b => if 0 ≤ b then ninf else pinf
  | fin _, pinf => fin 0
  | fin _, ninf => fin 0
  | fin a, fin b =>
      if b = 0 then (if a = 0 then nan else if 0 < a then pinf else ninf)
      else fin (a / b)

/-- Multiplication on the float model (IEEE semantics: NaN propagates,
infinity times zero is NaN, otherwise signs multiply). -/
def mul : PF → PF → PF
  | nan, _ => nan
  | _, nan => nan
  | pinf, pinf => pinf
  | pinf, ninf => ninf
  | ninf, pinf => ninf
  | ninf, ninf => pinf
  | pinf, fin b => if b = 0 then nan else if 0 < b then pinf else ninf
  | fin a, pinf => if a = 0 then nan else if 0 < a then pinf else ninf
  | ninf, fin b => if b = 0 then nan else if 0 < b then ninf else pinf
  | fin a, ninf => if a = 0 then nan else if 0 < a then ninf else pinf
  | fin a, fin b => fin (a * b)

/-- Strict less-than on the float model: false whenever a NaN is involved,
and the usual extended-order otherwise. -/
def ltB : PF → PF → Bool
  | nan, _ => false
  | _, nan => false
  | pinf, _ => false
  | _, pinf => true
  | ninf, ninf => false
  | ninf, _ => true
  | fin _, ninf => false
  | fin a, fin b => decide (a < b)

/-- Strict greater-than on the float model. -/
def gtB (a b : PF) : Bool := ltB b a

/-- Embedding of an optional rational (a finite-or-missing pandas value)
into the float model. -/
def ofOpt : Option ℚ → PF
  | none => nan
  | some q => fin q

/-- Whether a float value is finite. -/
def isFin : PF → Bool
  | fin _ => true
  | _ => false

end PF

/-! ## Optional-value comparisons

Python comparisons on pandas scalars return False whenever one side is
NaN; on the finite-or-missing model this is comparison on `Option ℚ` that
returns `false` when either side is missing. -/

/-- Strict less-than on finite-or-missing values, false when either side is
missing (NaN comparison semantics). -/
def oLt (a b : Option ℚ) : Bool :=
  match a, b with
  | some x, some y => decide (x < y)
  | _, _ => false

/-- Strict greater-than on finite-or-missing values, false when either side
is missing (NaN comparison semantics). -/
def oGt (a b : Option ℚ) : Bool :=
  match a, b with
  | some x, some y => decide (y < x)
  | _, _ => false

/-! ## Strategy parameters

Model of the `parameters` dictionary: every key the analyzer reads, as an
optional field; the getters reproduce `params.get(key, default)` with the
default used at each call site of the source. -/

structure Params where
  rsi_period : Option ℕ := none
  macd_fast : Option ℕ := none
  macd_slow : Option ℕ := none
  macd_signal : Option ℕ := none
  bb_period : Option ℕ := none
  bb_std : Option ℚ := none
  rsi_oversold : Option ℚ := none
  rsi_overbought : Option ℚ := none
  volume_threshold : Option ℚ := none
  min_conditions : Option ℕ := none
  tp_percent : Option ℚ := none
  sl_percent : Option ℚ := none
deriving Repr

namespace Params

/-- Lookup `params.get('rsi_oversold', 30)`. -/
def rsiOversold (p : Params) : ℚ := p.rsi_oversold.getD 30

/-- Lookup `params.get('rsi_overbought', 70)`. -/
def rsiOverbought (p : Params) : ℚ := p.rsi_overbought.getD 70

/-- Lookup `params.get('volume_threshold', 1.5)`. -/
def volumeThreshold (p : Params) : ℚ := p.volume_threshold.getD (3/2)

/-- Lookup `params.get('min_conditions', 2)`. -/
def minConditions (p : Params) : ℕ := p.min_conditions.getD 2

/-- Lookup `params.get('tp_percent', 3.0)`. -/
def tpPercent (p : Params) : ℚ := p.tp_percent.getD 3

/-- Lookup `params.get('sl_percent', 2.0)`. -/
def slPercent (p : Params) : ℚ := p.sl_percent.getD 2

/-- Lookup `params.get('rsi_period', 14)`. -/
def rsiPeriod (p : Params) : ℕ := p.rsi_period.getD 14

/-- Lookup `params.get('macd_fast', 12)`. -/
def macdFast (p : Params) : ℕ := p.macd_fast.getD 12

/-- Lookup `params.get('macd_slow', 26)`. -/
def macdSlow (p : Params) : ℕ := p.macd_slow.getD 26

/-- Lookup `params.get('macd_signal', 9)`. -/
def macdSignalSpan (p : Params) : ℕ := p.macd_signal.getD 9

/-- Lookup `params.get('bb_period', 20)`. -/
def bbPeriod (p : Params) : ℕ := p.bb_period.getD 20

/-- Lookup `params.get('bb_std', 2)`. -/
def bbStd (p : Params) : ℚ := p.bb_std.getD 2

end Params

/-! ## Latest-indicator row

Model of the row `latest = df.iloc[-1]` consumed by
`check_buy_conditions` / `check_sell_conditions`: each indicator value is a
finite-or-missing float. -/

structure IndicatorRow where
  rsi : Option ℚ := none
  macd : Option ℚ := none
  macd_signal : Option ℚ := none
  macd_hist : Option ℚ := none
  close : Option ℚ := none
  openPrice : Option ℚ := none
  bb_lower : Option ℚ := none
  bb_upper : Option ℚ := none
  volume_ratio : Option ℚ := none
  sma_20 : Option ℚ := none
  sma_50 : Option ℚ := none
  sma_200 : Option ℚ := none
deriving Repr

/-- Result of a condition check: the trigger flag, the list of condition
names fired (in source order), and the capped confidence. -/
structure CondResult where
  trigger : Bool
  conditions : List String
  confidence : ℚ
deriving Repr, DecidableEq

/-- Embedding of `MarketAnalyzer.check_buy_conditions`: each of the five
checks appends its name and adds its weight; finally trigger is
`len(conditions) >= params.get('min_conditions', 2)` and confidence is
capped at 100. -/
def check_buy_conditions (data : IndicatorRow) (params : Params) : CondResult :=
  let c1 : Bool := oLt data.rsi (some params.rsiOversold)
  let c2 : Bool := oGt data.macd data.macd_signal && oGt data.macd_hist (some 0)
  let c3 : Bool := oLt data.close data.bb_lower
  let c4 : Bool := oGt data.volume_ratio (some params.volumeThreshold)
  let c5 : Bool := oGt data.sma_20 data.sma_50 && oGt data.sma_50 data.sma_200
  let conditions : List String :=
    (if c1 then ["rsi_oversold"] else []) ++
    (if c2 then ["macd_bullish"] else []) ++
    (if c3 then ["bb_oversold"] else []) ++
    (if c4 then ["high_volume"] else []) ++
    (if c5 then ["golden_cross"] else [])
  let confidence : ℚ :=
    (if c1 then 25 else 0) + (if c2 then 20 else 0) + (if c3 then 15 else 0) +
    (if c4 then 10 else 0) + (if c5 then 30 else 0)
  { trigger := decide (conditions.length ≥ params.minConditions)
    conditions := conditions
    confidence := min confidence 100 }

/-- Embedding of `MarketAnalyzer.check_sell_conditions`: the five bearish
checks, with trigger and confidence computed the same way as on the buy
side. -/
def check_sell_conditions (data : IndicatorRow) (params : Params) : CondResult :=
  let c1 : Bool := oGt data.rsi (some params.rsiOverbought)
  let c2 : Bool := oLt data.macd data.macd_signal && oLt data.macd_hist (some 0)
  let c3 : Bool := oGt data.close data.bb_upper
  let c4 : Bool := oGt data.volume_ratio (some params.volumeThreshold)
                   && oLt data.close data.openPrice
  let c5 : Bool := oLt data.sma_20 data.sma_50 && oLt data.sma_50 data.sma_200
  let conditions : List String :=
    (if c1 then ["rsi_overbought"] else []) ++
    (if c2 then ["macd_bearish"] else []) ++
    (if c3 then ["bb_overbought"] else []) ++
    (if c4 then ["high_volume_down"] else []) ++
    (if c5 then ["death_cross"] else [])
  let confidence : ℚ :=
    (if c1 then 25 else 0) + (if c2 then 20 else 0) + (if c3 then 15 else 0) +
    (if c4 then 10 else 0) + (if c5 then 30 else 0)
  { trigger := decide (conditions.length ≥ params.minConditions)
    conditions := conditions
    confidence := min confidence 100 }

/-- Number of fired buy-side checks, counted directly from the five check
predicates (independent of the conditions list and of confidence). -/
def buyFiredCount (data : IndicatorRow) (params : Params) : ℕ :=
  (if oLt data.rsi (some params.rsiOversold) then 1 else 0) +
  (if oGt data.macd data.macd_signal && oGt data.macd_hist (some 0) then 1 else 0) +
  (if oLt data.close data.bb_lower then 1 else 0) +
  (if oGt data.volume_ratio (some params.volumeThreshold) then 1 else 0) +
  (if oGt data.sma_20 data.sma_50 && oGt data.sma_50 data.sma_200 then 1 else 0)

/-- Number of fired sell-side checks, counted directly from the five check
predicates. -/
def sellFiredCount (data : IndicatorRow) (params : Params) : ℕ :=
  (if oGt data.rsi (some params.rsiOverbought) then 1 else 0) +
  (if oLt data.macd data.macd_signal && oLt data.macd_hist (some 0) then 1 else 0) +
  (if oGt data.close data.bb_upper then 1 else 0) +
  (if oGt data.volume_ratio (some params.volumeThreshold)
      && oLt data.close data.openPrice then 1 else 0) +
  (if oLt data.sma_20 data.sma_50 && oLt data.sma_50 data.sma_200 then 1 else 0)

/-- Latest-indicator row on which only the moving-average-alignment (golden
cross) check fires: RSI far above the oversold default, MACD below its
signal, close above the lower band, volume ratio below threshold, and SMA20
above SMA50 above SMA200. -/
def goldenCrossOnlyRow : IndicatorRow :=
  { rsi := some 50, macd := some 0, macd_signal := some 1, macd_hist := some (-1)
    close := some 100, openPrice := some 100, bb_lower := some 90
    bb_upper := some 110, volume_ratio := some 1
    sma_20 := some 103, sma_50 := some 102, sma_200 := some 101 }

/-! ## Series primitives: diff, where-clauses, rolling windows, ewm -/

/-- Elementwise subtraction of finite-or-missing values, missing
propagating (NaN arithmetic). -/
def omSub (a b : Option ℚ) : Option ℚ :=
  match a, b with
  | some x, some y => some (x - y)
  | _, _ => none

/-- Embedding of `Series.diff()`: first element missing, then successive
differences, missing when either operand is missing. -/
def diffO : List (Option ℚ) → List (Option ℚ)
  | [] => []
  | x :: xs => none :: List.zipWith omSub xs (x :: xs)

/-- Embedding of `delta.where(delta > 0, 0)`: keep positive deltas, replace
everything else (including NaN, whose comparison is false) by 0. -/
def gainOf (delta : List (Option ℚ)) : List ℚ :=
  delta.map (fun d => match d with
    | some v => if 0 < v then v else 0
    | none => 0)

/-- Embedding of `(-delta.where(delta < 0, 0))`: keep negated negative
deltas, replace everything else (including NaN) by 0. -/
def lossOf (delta : List (Option ℚ)) : List ℚ :=
  delta.map (fun d => match d with
    | some v => if v < 0 then -v else 0
    | none => 0)

/-- Trailing window of width `w` ending at index `i`: the elements at
indices `i+1-w` through `i`. -/
def trailWindow (w i : ℕ) (xs : List α) : List α :=
  (xs.drop (i + 1 - w)).take w

/-- Embedding of `Series.rolling(window=w).mean()` on an all-finite series:
defined (the window average) from index `w-1` on, missing before. -/
def rollingMeanQ (w : ℕ) (xs : List ℚ) : List (Option ℚ) :=
  (List.range xs.length).map (fun i =>
    if w ≤ i + 1 then some ((trailWindow w i xs).sum / (w : ℚ)) else none)

/-- Embedding of `Series.rolling(window=w).mean()` on a finite-or-missing
series (pandas default `min_periods = w`): defined only when the full
window is present and free of missing values. -/
def rollingMeanO (w : ℕ) (xs : List (Option ℚ)) : List (Option ℚ) :=
  (List.range xs.length).map (fun i =>
    let win := trailWindow w i xs
    if w ≤ i + 1 ∧ win.all Option.isSome then
      some (win.reduceOption.sum / (w : ℚ))
    else none)

/-- Variance of a list of rationals with `ddof` delta degrees of freedom
(pandas `Series.std` squares this with its default `ddof = 1`): the sum of
squared deviations from the mean divided by `n - ddof`. -/
def varQ (ddof : ℕ) (l : List ℚ) : ℚ :=
  let m : ℚ := l.sum / (l.length : ℚ)
  (l.map (fun x => (x - m) ^ 2)).sum / ((l.length : ℚ) - (ddof : ℚ))

/-- Embedding of `Series.rolling(window=w).std()` (pandas default sample
standard deviation, `ddof = 1`): the square root of the sample variance of
each full window. -/
noncomputable def rollingStdSample (w : ℕ) (xs : List (Option ℚ)) : List (Option ℝ) :=
  (List.range xs.length).map (fun i =>
    let win := trailWindow w i xs
    if w ≤ i + 1 ∧ win.all Option.isSome then
      some (Real.sqrt ((varQ 1 win.reduceOption : ℚ) : ℝ))
    else none)

/-- Recursion underlying `Series.ewm(span, adjust=False).mean()`: the state
is the previous output; a present value `v` produces
`α v + (1 - α) previous` (or `v` when there is no previous output), a
missing value produces a missing output and keeps the state. -/
def ewmGo (α : ℚ) : Option ℚ → List (Option ℚ) → List (Option ℚ)
  | _, [] => []
  | st, none :: xs => none :: ewmGo α st xs
  | st, some v :: xs =>
      let y : ℚ := match st with
        | none => v
        | some p => α * v + (1 - α) * p
      some y :: ewmGo α (some y) xs

/-- Embedding of `Series.ewm(span=s, adjust=False).mean()` with the pandas
smoothing factor `α = 2 / (s + 1)`. -/
def ewmMean (span : ℕ) (xs : List (Option ℚ)) : List (Option ℚ) :=
  ewmGo (2 / ((span : ℚ) + 1)) none xs

/-! ## RSI, MACD, Bollinger bands -/

/-- Pointwise RSI formula `100 - (100 / (1 + gain / loss))` in float
semantics, applied to the rolling gain and loss averages. -/
def rsiPoint (g l : Option ℚ) : PF :=
  PF.sub (.fin 100) (PF.div (.fin 100) (PF.add (.fin 1) (PF.div (PF.ofOpt g) (PF.ofOpt l))))

/-- Embedding of `MarketAnalyzer.calculate_rsi`: rolling mean of gains over
rolling mean of losses, then the RSI formula, in float semantics (a zero
loss with positive gain makes the ratio +infinity). -/
def calculate_rsi (prices : List (Option ℚ)) (period : ℕ) : List PF :=
  let delta := diffO prices
  let gain := rollingMeanQ period (gainOf delta)
  let loss := rollingMeanQ period (lossOf delta)
  List.zipWith rsiPoint gain loss

/-- Embedding of `loss.replace(0, pd.NA)` applied elementwise: a zero
value becomes missing, everything else (including an already missing
value) is unchanged. -/
def zeroToNA (l : Option ℚ) : Option ℚ :=
  match l with
  | some v => if v = 0 then none else some v
  | none => none

/-- Embedding of `AutoTrader.calculate_rsi` from main.py: empty result for
an empty series or one shorter than `period + 1`, and a zero loss replaced
by a missing value (`loss.replace(0, pd.NA)`) before the division, so that
a zero loss yields an undefined RSI. -/
def autotrader_calculate_rsi (prices : List (Option ℚ)) (period : ℕ) : List PF :=
  if prices.length = 0 then []
  else if prices.length < period + 1 then []
  else
    let delta := diffO prices
    let gain := rollingMeanQ period (gainOf delta)
    let loss := rollingMeanQ period (lossOf delta)
    let lossNA := loss.map zeroToNA
    List.zipWith rsiPoint gain lossNA

/-- Embedding of `MarketAnalyzer.calculate_macd`: fast and slow exponential
means of the close, their difference, the signal line as the exponential
mean of the difference, and the histogram. -/
def calculate_macd (prices : List (Option ℚ)) (fast slow signal : ℕ) :
    List (Option ℚ) × List (Option ℚ) × List (Option ℚ) :=
  let exp1 := ewmMean fast prices
  let exp2 := ewmMean slow prices
  let macd := List.zipWith omSub exp1 exp2
  let macdSignal := ewmMean signal macd
  let macdHist := List.zipWith omSub macd macdSignal
  (macd, macdSignal, macdHist)

/-- Embedding of `MarketAnalyzer.calculate_bollinger_bands`: the middle
band is the rolling mean over the period, the upper and lower bands add and
subtract the rolling sample standard deviation times the width
multiplier. -/
noncomputable def calculate_bollinger_bands (prices : List (Option ℚ)) (period : ℕ) (k : ℚ) :
    List (Option ℝ) × List (Option ℚ) × List (Option ℝ) :=
  let sma := rollingMeanO period prices
  let std := rollingStdSample period prices
  let upper := List.zipWith (fun m s => match m, s with
    | some mv, some sv => some ((mv : ℝ) + sv * (k : ℝ))
    | _, _ => none) sma std
  let lower := List.zipWith (fun m s => match m, s with
    | some mv, some sv => some ((mv : ℝ) - sv * (k : ℝ))
    | _, _ => none) sma std
  (upper, sma, lower)

/-- Volatility bands as the specification words them: the same rolling
mean, but the deviation is the rolling population standard deviation
(divisor `n`, that is `ddof = 0`). -/
noncomputable def specPopulationBands (prices : List (Option ℚ)) (period : ℕ) (k : ℚ) :
    List (Option ℝ) × List (Option ℚ) × List (Option ℝ) :=
  let sma := rollingMeanO period prices
  let std := (List.range prices.length).map (fun i =>
    let win := trailWindow period i prices
    if period ≤ i + 1 ∧ win.all Option.isSome then
      some (Real.sqrt ((varQ 0 win.reduceOption : ℚ) : ℝ))
    else none)
  let upper := List.zipWith (fun m s => match m, s with
    | some mv, some sv => some ((mv : ℝ) + sv * (k : ℝ))
    | _, _ => none) sma std
  let lower := List.zipWith (fun m s => match m, s with
    | some mv, some sv => some ((mv : ℝ) - sv * (k : ℝ))
    | _, _ => none) sma std
  (upper, sma, lower)

/-! ## Indicator-frame pipeline

Model of the DataFrame flowing through
`MarketAnalyzer.apply_technical_indicators`: the input columns and every
indicator column the function assigns, a column being `none` when absent.
The source wraps the whole body in `try/except` that logs and returns the
frame, so the function is total: a missing `close` column raises a
`KeyError` at the first use and the frame is returned unchanged; a missing
`volume` column raises after the RSI/MACD/Bollinger columns were already
assigned in place, so those columns survive while the volume and SMA
columns are never assigned. -/

structure IndicatorFrame where
  close : Option (List (Option ℚ)) := none
  volume : Option (List (Option ℚ)) := none
  rsiCol : Option (List PF) := none
  macdCol : Option (List (Option ℚ)) := none
  macdSignalCol : Option (List (Option ℚ)) := none
  macdHistCol : Option (List (Option ℚ)) := none
  bbUpperCol : Option (List (Option ℝ)) := none
  bbMiddleCol : Option (List (Option ℚ)) := none
  bbLowerCol : Option (List (Option ℝ)) := none
  volumeSmaCol : Option (List (Option ℚ)) := none
  volumeRatioCol : Option (List PF) := none
  sma20Col : Option (List (Option ℚ)) := none
  sma50Col : Option (List (Option ℚ)) := none
  sma200Col : Option (List (Option ℚ)) := none

/-- Embedding of `MarketAnalyzer.apply_technical_indicators`.  The
assignments happen in source order; the two possible exceptions (missing
`close`, missing `volume`) are caught, keeping whatever columns were
already assigned.  No input length ever raises: short series simply
produce missing values inside the indicator columns. -/
noncomputable def apply_technical_indicators (df : IndicatorFrame) (params : Params) :
    IndicatorFrame :=
  match df.close with
  | none => df
  | some closes =>
    let rsiL := calculate_rsi closes params.rsiPeriod
    let macd3 := calculate_macd closes params.macdFast params.macdSlow params.macdSignalSpan
    let bb3 := calculate_bollinger_bands closes params.bbPeriod params.bbStd
    let df1 : IndicatorFrame :=
      { df with rsiCol := some rsiL
                macdCol := some macd3.1
                macdSignalCol := some macd3.2.1
                macdHistCol := some macd3.2.2
                bbUpperCol := some bb3.1
                bbMiddleCol := some bb3.2.1
                bbLowerCol := some bb3.2.2 }
    match df.volume with
    | none => df1
    | some vols =>
      let vsma := rollingMeanO 20 vols
      let vratio := List.zipWith (fun v s => PF.div (PF.ofOpt v) (PF.ofOpt s)) vols vsma
      { df1 with volumeSmaCol := some vsma
                 volumeRatioCol := some vratio
                 sma20Col := some (rollingMeanO 20 closes)
                 sma50Col := some (rollingMeanO 50 closes)
                 sma200Col := some (rollingMeanO 200 closes) }

/-! ## Data aggregator: volatility, trend, sentiment -/

/-- Embedding of `Series.pct_change()` on a NaN-free price series (the
aggregation path drops missing closes before use), in float semantics: the
first return is NaN, then each return is `(cur - prev) / prev`, which at a
zero previous price is a signed infinity (or NaN for 0/0). -/
def pctChange : List ℚ → List PF
  | [] => []
  | x :: xs =>
      PF.nan :: List.zipWith (fun cur prev => PF.div (PF.fin (cur - prev)) (PF.fin prev))
        xs (x :: xs)

/-- Embedding of `Series.dropna()` on a float series: NaN entries are
removed; infinities are NOT missing values and are kept. -/
def dropNaN (l : List PF) : List PF :=
  l.filter (fun x => match x with
    | PF.nan => false
    | _ => true)

/-- Finite values of a float series. -/
def finValsOf (l : List PF) : List ℚ :=
  l.filterMap (fun x => match x with
    | PF.fin q => some q
    | _ => none)

/-- Embedding of `Series.std()` (sample standard deviation, pandas default
`ddof = 1`) on a NaN-free float series: undefined (NaN) for fewer than 2
entries, undefined whenever an infinity is present (the variance of a
series containing an infinity is NaN), and otherwise the square root of
the sample variance. -/
noncomputable def seriesStd (l : List PF) : Option ℝ :=
  if l.length ≤ 1 then none
  else if l.all PF.isFin then some (Real.sqrt ((varQ 1 (finValsOf l) : ℚ) : ℝ))
  else none

/-- Embedding of `DataAggregator.calculate_volatility`: fewer than 2 points
give 0; the percentage returns are computed in float semantics and the NaN
ones dropped (`dropna`); an empty return list gives 0; otherwise the
result is the sample standard deviation of the returns times 100 — NaN
(modelled `none`) when only one return remains or when an infinite return
(from a zero previous price) is present. -/
noncomputable def calculate_volatility (prices : List ℚ) : Option ℝ :=
  if prices.length < 2 then some 0
  else if (dropNaN (pctChange prices)).length = 0 then some 0
  else (seriesStd (dropNaN (pctChange prices))).map (fun s => s * 100)

/-- Result of `DataAggregator.calculate_trend`: the direction, the strength
on the 0 to 100 scale, and the first-to-last percentage change in float
semantics (NaN when an endpoint is missing, a signed infinity when the
first price is zero). -/
structure TrendInfo where
  direction : String
  strength : ℚ
  change_percent : PF
deriving Repr, DecidableEq

/-- Valid regression points of a finite-or-missing series, indices starting
at `i`: the pairs (index, value) at the indices whose value is present (the
NaN mask applied to `np.arange` and the values in the source). -/
def validPointsFrom (i : ℕ) : List (Option ℚ) → List (ℚ × ℚ)
  | [] => []
  | none :: xs => validPointsFrom (i + 1) xs
  | some p :: xs => ((i : ℚ), p) :: validPointsFrom (i + 1) xs

/-- Valid regression points of a finite-or-missing series. -/
def validPoints (prices : List (Option ℚ)) : List (ℚ × ℚ) :=
  validPointsFrom 0 prices

/-- Mean of the first coordinates of a point list. -/
def xbarOf (pts : List (ℚ × ℚ)) : ℚ := (pts.map Prod.fst).sum / (pts.length : ℚ)

/-- Mean of the second coordinates of a point list. -/
def ybarOf (pts : List (ℚ × ℚ)) : ℚ := (pts.map Prod.snd).sum / (pts.length : ℚ)

/-- Centered sum of squares of the first coordinates. -/
def sxxOf (pts : List (ℚ × ℚ)) : ℚ :=
  (pts.map (fun q => (q.1 - xbarOf pts) ^ 2)).sum

/-- Centered sum of products of the coordinates. -/
def sxyOf (pts : List (ℚ × ℚ)) : ℚ :=
  (pts.map (fun q => (q.1 - xbarOf pts) * (q.2 - ybarOf pts))).sum

/-- Centered sum of squares of the second coordinates (the total sum of
squares of the source). -/
def syyOf (pts : List (ℚ × ℚ)) : ℚ :=
  (pts.map (fun q => (q.2 - ybarOf pts) ^ 2)).sum

/-- Slope of the degree-1 least-squares fit (the exact solution of
`np.polyfit` degree 1): `Sxy / Sxx`. -/
def slopeOf (pts : List (ℚ × ℚ)) : ℚ := sxyOf pts / sxxOf pts

/-- Intercept of the degree-1 least-squares fit: the line passes through
the point of means. -/
def interceptOf (pts : List (ℚ × ℚ)) : ℚ := ybarOf pts - slopeOf pts * xbarOf pts

/-- Residual sum of squares of the points against the fitted line
(`ss_res` of the source, with `y_pred = slope * x + intercept`). -/
def ssResOf (pts : List (ℚ × ℚ)) : ℚ :=
  (pts.map (fun q => (q.2 - (slopeOf pts * q.1 + interceptOf pts)) ^ 2)).sum

/-- Coefficient of determination as the source computes it:
`1 - ss_res / ss_tot` guarded by `ss_tot != 0`. -/
def r2Of (pts : List (ℚ × ℚ)) : ℚ :=
  if syyOf pts ≠ 0 then 1 - ssResOf pts / syyOf pts else 0

/-- Least-squares strength of a point list, as the source computes it:
`abs(r_squared) * 100`, and 0 for fewer than 2 points. -/
def lsStrength (pts : List (ℚ × ℚ)) : ℚ :=
  if pts.length < 2 then 0 else |r2Of pts| * 100

/-- Embedding of `DataAggregator.calculate_trend`: fewer than 2 points give
the sideways default; otherwise the direction comes from the first-to-last
percentage change (computed in float semantics) thresholded at plus and
minus 1, a NaN comparison being false and so landing on sideways, and the
strength comes from the least-squares fit over the valid points. -/
def calculate_trend (prices : List (Option ℚ)) : TrendInfo :=
  if prices.length < 2 then
    { direction := "sideways", strength := 0, change_percent := PF.fin 0 }
  else
    let first := (prices.headI : Option ℚ)
    let last := (prices.getLastI : Option ℚ)
    let change : PF :=
      PF.mul (PF.div (PF.sub (PF.ofOpt last) (PF.ofOpt first)) (PF.ofOpt first)) (PF.fin 100)
    let direction :=
      if PF.gtB change (PF.fin 1) then "up"
      else if PF.ltB change (PF.fin (-1)) then "down"
      else "sideways"
    { direction := direction
      strength := lsStrength (validPoints prices)
      change_percent := change }

/-- One bar of the OHLCV window consumed by the sentiment computation (the
fields the source reads). -/
structure OhlcBar where
  opn : Option ℚ := none
  cls : Option ℚ := none
  vol : Option ℚ := none
deriving Repr

/-- Market-data window for the sentiment computation: the bars and whether
the frame has a Volume column. -/
structure MarketFrame where
  bars : List OhlcBar
  hasVolume : Bool := true

/-- Embedding of `DataAggregator.calculate_market_sentiment`: a window of
fewer than 10 points is neutral; otherwise the trend score (direction with
strength above 50), the volume score (only when a Volume column exists: a
rising volume trend reinforces the price-trend direction), and the candle
score over the last 5 bars are summed and the sign of the total picks the
sentiment.  An absent Volume column appends no score, which is modelled as
adding 0. -/
def calculate_market_sentiment (df : MarketFrame) : String :=
  if df.bars.length < 10 then "neutral"
  else
    let trend := calculate_trend (df.bars.map (fun b => b.cls))
    let s1 : ℤ :=
      if trend.direction = "up" ∧ trend.strength > 50 then 1
      else if trend.direction = "down" ∧ trend.strength > 50 then -1
      else 0
    let s2 : ℤ :=
      if df.hasVolume then
        let vtrend := calculate_trend (df.bars.map (fun b => b.vol))
        if vtrend.direction = "up" then (if trend.direction = "up" then 1 else -1)
        else 0
      else 0
    let recent := df.bars.drop (df.bars.length - 5)
    let bullish := (recent.filter (fun b => oGt b.cls b.opn)).length
    let bearish := (recent.filter (fun b => oLt b.cls b.opn)).length
    let s3 : ℤ :=
      if bullish > bearish then 1
      else if bearish > bullish then -1
      else 0
    let total := s1 + s2 + s3
    if total > 0 then "bullish"
    else if total < 0 then "bearish"
    else "neutral"

/-! ## Take-profit and stop-loss pricing -/

/-- Embedding of `MarketAnalyzer.calculate_tp_price`: buy direction marks
the price up by the take-profit percentage, every other direction marks it
down. -/
def calculate_tp_price (entry_price : ℚ) (direction : String) (params : Params) : ℚ :=
  if direction = "buy" then entry_price * (1 + params.tpPercent / 100)
  else entry_price * (1 - params.tpPercent / 100)

/-- Embedding of `MarketAnalyzer.calculate_sl_price`: buy direction marks
the price down by the stop-loss percentage, every other direction marks it
up. -/
def calculate_sl_price (entry_price : ℚ) (direction : String) (params : Params) : ℚ :=
  if direction = "buy" then entry_price * (1 - params.slPercent / 100)
  else entry_price * (1 + params.slPercent / 100)

/-! ## Specification-side definitions

Definitions written from the words of the specification, to be compared
with the embeddings above. -/

/-- Direction classification as the specification words it: up when the
first-to-last percentage change exceeds 1, down when it is below minus 1,
sideways otherwise. -/
def specDirection (change : ℚ) : String :=
  if change > 1 then "up" else if change < -1 then "down" else "sideways"

/-- Trend strength as the specification words it: the coefficient of
determination of the ordinary least-squares line, in its closed form
`Sxy^2 / (Sxx * Syy)`, times 100; zero when fewer than 2 valid points
remain or when the total sum of squares is zero. -/
def specR2Strength (pts : List (ℚ × ℚ)) : ℚ :=
  if pts.length < 2 then 0
  else if syyOf pts = 0 then 0
  else (sxyOf pts) ^ 2 / (sxxOf pts * syyOf pts) * 100

/-- Trend vote of the sentiment specification: plus or minus 1 when the
direction is up or down with strength above 50, else 0. -/
def specTrendVote (t : TrendInfo) : ℤ :=
  if t.direction = "up" ∧ t.strength > 50 then 1
  else if t.direction = "down" ∧ t.strength > 50 then -1
  else 0

/-- Volume vote of the sentiment specification: when volume trends up it
reinforces the price trend (plus 1 if the price trend is up, else minus 1),
otherwise 0. -/
def specVolumeVote (priceTrend volumeTrend : TrendInfo) : ℤ :=
  if volumeTrend.direction = "up" then (if priceTrend.direction = "up" then 1 else -1)
  else 0

/-- Candle vote of the sentiment specification over the last 5 bars: the
sign of the bullish-minus-bearish candle count. -/
def specCandleVote (bars : List OhlcBar) : ℤ :=
  let recent := bars.drop (bars.length - 5)
  let bullish := (recent.filter (fun b => oGt b.cls b.opn)).length
  let bearish := (recent.filter (fun b => oLt b.cls b.opn)).length
  if bullish > bearish then 1 else if bearish > bullish then -1 else 0

/-- Market sentiment as the specification words it: neutral under 10
points, otherwise the sign of the sum of the trend vote, the volume vote
(present only with a Volume column) and the candle vote. -/
def specSentiment (df : MarketFrame) : String :=
  if df.bars.length < 10 then "neutral"
  else
    let t := calculate_trend (df.bars.map (fun b => b.cls))
    let v : ℤ :=
      if df.hasVolume then
        specVolumeVote t (calculate_trend (df.bars.map (fun b => b.vol)))
      else 0
    let total := specTrendVote t + v + specCandleVote df.bars
    if total > 0 then "bullish" else if total < 0 then "bearish" else "neutral"

/-- Volatility bands as the source computes them, restated from the
specification amended to the sample standard deviation: middle is the
rolling mean, upper and lower add and subtract the width multiplier times
the square root of the sample variance (divisor `n - 1`) of each full
window. -/
noncomputable def specSampleBands (prices : List (Option ℚ)) (period : ℕ) (k : ℚ) :
    List (Option ℝ) × List (Option ℚ) × List (Option ℝ) :=
  let sma := rollingMeanO period prices
  let std := (List.range prices.length).map (fun i =>
    let win := trailWindow period i prices
    if period ≤ i + 1 ∧ win.all Option.isSome then
      some (Real.sqrt ((varQ 1 win.reduceOption : ℚ) : ℝ))
    else none)
  let upper := List.zipWith (fun m s => match m, s with
    | some mv, some sv => some ((mv : ℝ) + sv * (k : ℝ))
    | _, _ => none) sma std
  let lower := List.zipWith (fun m s => match m, s with
    | some mv, some sv => some ((mv : ℝ) - sv * (k : ℝ))
    | _, _ => none) sma std
  (upper, sma, lower)

/-! ## Concrete series used in the analysis -/

/-- Strictly increasing 20-point series whose overall change is 0.19
percent (below the 1 percent direction threshold). -/
def tinyUpSeries : List ℚ :=
  [10000, 10001, 10002, 10003, 10004, 10005, 10006, 10007, 10008, 10009,
   10010, 10011, 10012, 10013, 10014, 10015, 10016, 10017, 10018, 10019]

/-- Strictly increasing 20-point series that is linear except for a large
final jump: the overall change is big but the linear fit is poor. -/
def jumpSeries : List ℚ :=
  [100, 101, 102, 103, 104, 105, 106, 107, 108, 109,
   110, 111, 112, 113, 114, 115, 116, 117, 118, 10100]

/-- Strictly increasing affine 20-point series with step 2 from 100. -/
def affineUpSeries : List ℚ :=
  [100, 102, 104, 106, 108, 110, 112, 114, 116, 118,
   120, 122, 124, 126, 128, 130, 132, 134, 136, 138]

/-! ## Theorems settling the claims -/

/-- C9: the signal synthesizer computes, for a buy, take-profit
`entry * (1 + tp/100)` and stop-loss `entry * (1 - sl/100)`, and for a
sell, take-profit `entry * (1 - tp/100)` and stop-loss
`entry * (1 + sl/100)`; at entry 100 with tp 3 and sl 2 a buy yields
take-profit 103 and stop-loss 98 and a sell yields take-profit 97 and
stop-loss 102. -/
theorem tp_sl_formulas_and_roundtrip :
    (∀ (entry : ℚ) (p : Params),
      calculate_tp_price entry "buy" p = entry * (1 + p.tpPercent / 100) ∧
      calculate_sl_price entry "buy" p = entry * (1 - p.slPercent / 100) ∧
      calculate_tp_price entry "sell" p = entry * (1 - p.tpPercent / 100) ∧
      calculate_sl_price entry "sell" p = entry * (1 + p.slPercent / 100)) ∧
    calculate_tp_price 100 "buy" { tp_percent := some 3, sl_percent := some 2 } = 103 ∧
    calculate_sl_price 100 "buy" { tp_percent := some 3, sl_percent := some 2 } = 98 ∧
    calculate_tp_price 100 "sell" { tp_percent := some 3, sl_percent := some 2 } = 97 ∧
    calculate_sl_price 100 "sell" { tp_percent := some 3, sl_percent := some 2 } = 102 := by
  refine ⟨fun entry p => ⟨rfl, rfl, rfl, rfl⟩, ?_, ?_, ?_, ?_⟩ <;>
    norm_num [calculate_tp_price, calculate_sl_price, Params.tpPercent, Params.slPercent] <;>
    decide

/-- C10: for any direction other than the exact string buy (such as hold
or none), the take-profit and stop-loss fall back to the sell-side
formulas, and no error path exists. -/
theorem non_buy_direction_uses_sell_formulas
    (entry : ℚ) (p : Params) (direction : String) (h : direction ≠ "buy") :
    calculate_tp_price entry direction p = entry * (1 - p.tpPercent / 100) ∧
    calculate_sl_price entry direction p = entry * (1 + p.slPercent / 100) := by
  constructor <;> simp [calculate_tp_price, calculate_sl_price, h]

/-- Witness for C10 at the concrete direction hold. -/
theorem non_buy_direction_uses_sell_formulas_witness :
    calculate_tp_price 100 "hold" {} = 100 * (1 - Params.tpPercent {} / 100) ∧
    calculate_sl_price 100 "hold" {} = 100 * (1 + Params.slPercent {} / 100) :=
  non_buy_direction_uses_sell_formulas 100 {} "hold" (by decide)

/-- C1: for every latest-indicator row and parameter set, the buy and sell
condition evaluators trigger exactly when the number of fired checks
reaches the configured minimum-condition count (independently of the
confidence value), and on the row where only the 30-weight
moving-average-alignment check fires, with the default minimum of 2, the
trigger is false even though the confidence is 30. -/
theorem trigger_iff_min_conditions :
    (∀ (row : IndicatorRow) (p : Params),
      ((check_buy_conditions row p).trigger = true ↔
        p.minConditions ≤ buyFiredCount row p) ∧
      ((check_sell_conditions row p).trigger = true ↔
        p.minConditions ≤ sellFiredCount row p)) ∧
    (check_buy_conditions goldenCrossOnlyRow {}).trigger = false ∧
    (check_buy_conditions goldenCrossOnlyRow {}).conditions = ["golden_cross"] ∧
    (check_buy_conditions goldenCrossOnlyRow {}).confidence = 30 := by
  refine ⟨fun row p => ⟨?_, ?_⟩,
    by norm_num [check_buy_conditions, goldenCrossOnlyRow, oLt, oGt, Params.minConditions,
         Params.rsiOversold, Params.volumeThreshold],
    by norm_num [check_buy_conditions, goldenCrossOnlyRow, oLt, oGt, Params.minConditions,
         Params.rsiOversold, Params.volumeThreshold],
    by norm_num [check_buy_conditions, goldenCrossOnlyRow, oLt, oGt, Params.minConditions,
         Params.rsiOversold, Params.volumeThreshold]⟩
  · cases h1 : oLt row.rsi (some p.rsiOversold) <;>
    cases h2 : oGt row.macd row.macd_signal && oGt row.macd_hist (some 0) <;>
    cases h3 : oLt row.close row.bb_lower <;>
    cases h4 : oGt row.volume_ratio (some p.volumeThreshold) <;>
    cases h5 : oGt row.sma_20 row.sma_50 && oGt row.sma_50 row.sma_200 <;>
    simp [check_buy_conditions, buyFiredCount, h1, h2, h3, h4, h5]
  · cases h1 : oGt row.rsi (some p.rsiOverbought) <;>
    cases h2 : oLt row.macd row.macd_signal && oLt row.macd_hist (some 0) <;>
    cases h3 : oGt row.close row.bb_upper <;>
    cases h4 : oGt row.volume_ratio (some p.volumeThreshold) && oLt row.close row.openPrice <;>
    cases h5 : oLt row.sma_20 row.sma_50 && oLt row.sma_50 row.sma_200 <;>
    simp [check_sell_conditions, sellFiredCount, h1, h2, h3, h4, h5]

/-- C8: the market sentiment is neutral unconditionally under 10 points,
and otherwise is bullish, bearish or neutral according to the sign of the
sum of the trend vote (strength threshold 50), the volume-trend vote
(conditioned on the price-trend direction) and the candle-count vote over
the last 5 bars. -/
theorem sentiment_matches_spec_votes (df : MarketFrame) :
    calculate_market_sentiment df = specSentiment df := rfl

/-- C5 (amended): the volatility bands are the rolling mean plus and minus
the width multiplier times the rolling standard deviation, where the
deviation is the sample standard deviation with divisor `n - 1` (the
pandas default), not the population standard deviation. -/
theorem bands_use_sample_std (prices : List (Option ℚ)) (period : ℕ) (k : ℚ) :
    calculate_bollinger_bands prices period k = specSampleBands prices period k := rfl

/-- Witness for C5 is not needed for the equality itself; this applies the
theorem at a concrete input. -/
theorem bands_use_sample_std_witness :
    calculate_bollinger_bands [some 0, some 2] 2 2 = specSampleBands [some 0, some 2] 2 2 :=
  bands_use_sample_std [some 0, some 2] 2 2

/-- C5 counterexample: on the window 0, 2 with period 2 and width 2 the
code's upper band is `1 + sqrt 2 * 2` (sample standard deviation
`sqrt 2`), while the population-standard-deviation band the claim asserts
is `1 + 1 * 2`, and the two differ. -/
theorem bands_population_differs :
    (calculate_bollinger_bands [some 0, some 2] 2 2).1.get? 1
        = some (some ((1 : ℝ) + Real.sqrt 2 * 2)) ∧
    (specPopulationBands [some 0, some 2] 2 2).1.get? 1 = some (some ((1 : ℝ) + 1 * 2)) ∧
    ((1 : ℝ) + Real.sqrt 2 * 2 ≠ 1 + 1 * 2) := by
  refine ⟨?_, ?_, ?_⟩
  · norm_num [calculate_bollinger_bands, rollingMeanO, rollingStdSample, trailWindow, varQ,
      List.range_succ, List.reduceOption, List.filterMap_cons]
  · norm_num [specPopulationBands, rollingMeanO, trailWindow, varQ,
      List.range_succ, List.reduceOption, List.filterMap_cons]
  · intro h
    nlinarith [Real.sq_sqrt (show (0:ℝ) ≤ 2 by norm_num), Real.sqrt_nonneg 2]

/-- Length of a diffed series equals the input length. -/
theorem diffO_length (xs : List (Option ℚ)) : (diffO xs).length = xs.length := by
  cases xs with
  | nil => rfl
  | cons x xs => simp [diffO]

/-- A rolling mean over a window longer than the whole series is missing
everywhere. -/
theorem rollingMeanQ_all_none {w : ℕ} {xs : List ℚ} (h : xs.length < w) :
    ∀ o ∈ rollingMeanQ w xs, o = none := by
  intro o ho
  simp only [rollingMeanQ, List.mem_map, List.mem_range] at ho
  obtain ⟨i, hi, rfl⟩ := ho
  rw [if_neg]
  omega

/-- The RSI formula on a missing gain is NaN. -/
theorem rsiPoint_none_left (b : Option ℚ) : rsiPoint none b = PF.nan := by
  cases b <;> rfl

/-- A zipped RSI column with all gains missing is NaN everywhere. -/
theorem zipWith_rsiPoint_nan :
    ∀ (gs ls : List (Option ℚ)), (∀ g ∈ gs, g = none) →
      ∀ pf ∈ List.zipWith rsiPoint gs ls, pf = PF.nan
  | [], _, _ => by simp
  | _ :: _, [], _ => by simp
  | g :: gs, l :: ls, hg => by
    intro pf hpf
    rcases List.mem_cons.1 hpf with h | h
    · rw [h, hg g (List.mem_cons_self g gs), rsiPoint_none_left]
    · exact zipWith_rsiPoint_nan gs ls (fun x hx => hg x (List.mem_cons_of_mem _ hx)) pf h

/-- The analyzer RSI of a series shorter than its period is NaN
everywhere. -/
theorem calculate_rsi_short {closes : List (Option ℚ)} {w : ℕ} (h : closes.length < w) :
    ∀ pf ∈ calculate_rsi closes w, pf = PF.nan := by
  intro pf hpf
  refine zipWith_rsiPoint_nan _ _ (rollingMeanQ_all_none ?_) pf hpf
  simp [gainOf, diffO_length, h]

/-- C3 (amended): the indicator-computation entry point is total and never
raises: a frame lacking the close column is returned unchanged (the
exception is caught), and a well-formed series shorter than the RSI window
is returned enriched with an all-undefined (NaN) RSI column rather than
failing with an InsufficientDataError. -/
theorem indicators_total_no_errors :
    (∀ (df : IndicatorFrame) (p : Params), df.close = none →
        apply_technical_indicators df p = df) ∧
    (∀ (df : IndicatorFrame) (p : Params) (closes : List (Option ℚ)),
        df.close = some closes → closes.length < p.rsiPeriod →
        ∃ r, (apply_technical_indicators df p).rsiCol = some r ∧ ∀ pf ∈ r, pf = PF.nan) := by
  constructor
  · intro df p h
    simp [apply_technical_indicators, h]
  · intro df p closes hc hlen
    refine ⟨calculate_rsi closes p.rsiPeriod, ?_, calculate_rsi_short hlen⟩
    simp only [apply_technical_indicators, hc]
    cases hv : df.volume <;> simp [hv]

/-- Witness for C3 at concrete frames: a frame with no close column comes
back unchanged, and a one-bar frame comes back with an all-NaN RSI
column. -/
theorem indicators_total_no_errors_witness :
    apply_technical_indicators { volume := some [] } {} = { volume := some [] } ∧
    ∃ r, (apply_technical_indicators { close := some [some 1] } {}).rsiCol = some r ∧
      ∀ pf ∈ r, pf = PF.nan :=
  ⟨indicators_total_no_errors.1 { volume := some [] } {} rfl,
   indicators_total_no_errors.2 { close := some [some 1] } {} [some 1] rfl (by decide)⟩

/-- C3 counterexample: on the one-bar frame (shorter than every indicator
window) the entry point returns normally — the close column survives, the
RSI column is the undefined marker, the Bollinger middle band is undefined
and no volume columns are added — instead of failing with an
InsufficientDataError. -/
theorem indicators_silent_partial_output :
    (apply_technical_indicators { close := some [some 1] } {}).close = some [some 1] ∧
    (apply_technical_indicators { close := some [some 1] } {}).rsiCol = some [PF.nan] ∧
    (apply_technical_indicators { close := some [some 1] } {}).bbMiddleCol = some [none] ∧
    (apply_technical_indicators { close := some [some 1] } {}).volumeRatioCol = none := by
  refine ⟨?_, ?_, ?_, ?_⟩ <;> rfl

/-! ### Least-squares algebra -/

/-- A sum of squares is nonnegative. -/
theorem sum_map_sq_nonneg {α : Type} (l : List α) (f : α → ℚ) :
    0 ≤ (l.map (fun q => f q ^ 2)).sum := by
  apply List.sum_nonneg
  intro x hx
  obtain ⟨a, _, rfl⟩ := List.mem_map.1 hx
  positivity

/-- A vanishing sum of squares has every term zero. -/
theorem sum_map_sq_eq_zero {α : Type} {l : List α} {f : α → ℚ}
    (h : (l.map (fun q => f q ^ 2)).sum = 0) : ∀ q ∈ l, f q = 0 := by
  intro q hq
  have hmem : f q ^ 2 ∈ l.map (fun q => f q ^ 2) := List.mem_map_of_mem _ hq
  have hz : f q ^ 2 = 0 := by
    refine List.all_zero_of_le_zero_le_of_sum_eq_zero ?_ h hmem
    intro x hx
    obtain ⟨a, _, rfl⟩ := List.mem_map.1 hx
    positivity
  exact (pow_eq_zero_iff (two_ne_zero)).1 hz

/-- Expansion of the residual sum of squares of a line through the point
of means: quadratic in the slope with the three centered sums as
coefficients. -/
theorem sum_residual_expand (pts : List (ℚ × ℚ)) (s xb yb : ℚ) :
    (pts.map (fun q => (q.2 - (s * q.1 + (yb - s * xb))) ^ 2)).sum
      = (pts.map (fun q => (q.2 - yb) ^ 2)).sum
        - 2 * s * (pts.map (fun q => (q.1 - xb) * (q.2 - yb))).sum
        + s ^ 2 * (pts.map (fun q => (q.1 - xb) ^ 2)).sum := by
  induction pts with
  | nil => simp
  | cons q qs ih =>
    simp only [List.map_cons, List.sum_cons, ih]
    ring

/-- The residual sum of squares in terms of the centered sums. -/
theorem ssResOf_expand (pts : List (ℚ × ℚ)) :
    ssResOf pts = syyOf pts - 2 * slopeOf pts * sxyOf pts + slopeOf pts ^ 2 * sxxOf pts := by
  unfold ssResOf interceptOf syyOf sxyOf sxxOf
  exact sum_residual_expand pts (slopeOf pts) (xbarOf pts) (ybarOf pts)

/-- The strength the source computes (with its absolute value and its
`ss_tot` guard) coincides with the closed-form coefficient of
determination `Sxy^2 / (Sxx * Syy)` of the specification, for every point
list. -/
theorem ls_eq_spec (pts : List (ℚ × ℚ)) : lsStrength pts = specR2Strength pts := by
  rw [lsStrength, specR2Strength]
  by_cases hlen : pts.length < 2
  · rw [if_pos hlen, if_pos hlen]
  · rw [if_neg hlen, if_neg hlen]
    have hSnn : 0 ≤ sxxOf pts := sum_map_sq_nonneg _ _
    have hYnn : 0 ≤ syyOf pts := sum_map_sq_nonneg _ _
    by_cases hY : syyOf pts = 0
    · rw [if_pos hY, r2Of, if_neg (not_not_intro hY)]
      simp
    · rw [if_neg hY]
      by_cases hX : sxxOf pts = 0
      · have hdx : ∀ q ∈ pts, q.1 - xbarOf pts = 0 := sum_map_sq_eq_zero hX
        have hsxy : sxyOf pts = 0 := by
          rw [sxyOf]
          apply List.sum_eq_zero
          intro x hx
          obtain ⟨q, hq, rfl⟩ := List.mem_map.1 hx
          rw [hdx q hq, zero_mul]
        have hres : ssResOf pts = syyOf pts := by
          rw [ssResOf_expand, slopeOf, hX, div_zero]
          ring
        rw [r2Of, if_pos hY, hres, div_self hY, hsxy, hX]
        norm_num
      · have hres : ssResOf pts = syyOf pts - sxyOf pts ^ 2 / sxxOf pts := by
          rw [ssResOf_expand, slopeOf]
          field_simp
          ring
        have hr2 : r2Of pts = sxyOf pts ^ 2 / (sxxOf pts * syyOf pts) := by
          rw [r2Of, if_pos hY, hres]
          field_simp
          ring
        rw [hr2, abs_of_nonneg (div_nonneg (pow_two_nonneg _) (mul_nonneg hSnn hYnn))]

/-- C7: for every series of length at least 2 with defined endpoints and
nonzero first price, the trend direction is classified from the
first-to-last percentage change with thresholds plus and minus 1, and the
strength equals the coefficient of determination of the least-squares line
over the NaN-masked (index, price) points, times 100, with the
fewer-than-2-valid-points and zero-total-variance cases giving 0. -/
theorem trend_direction_and_r2_strength
    (prices : List (Option ℚ)) (f l : ℚ)
    (hlen : 2 ≤ prices.length) (hf : prices.headI = some f)
    (hl : prices.getLastI = some l) (hf0 : f ≠ 0) :
    (calculate_trend prices).direction = specDirection ((l - f) / f * 100) ∧
    (calculate_trend prices).strength = specR2Strength (validPoints prices) := by
  have hnot : ¬ prices.length < 2 := by omega
  constructor
  · simp only [calculate_trend, if_neg hnot, hf, hl]
    simp [PF.ofOpt, PF.sub, PF.add, PF.neg, PF.div, PF.mul, PF.gtB, PF.ltB, hf0,
      specDirection, ← sub_eq_add_neg]
  · simp only [calculate_trend, if_neg hnot]
    exact ls_eq_spec _

/-- Witness for C7 at a concrete three-point series containing a missing
value. -/
theorem trend_direction_and_r2_strength_witness :
    (calculate_trend [some 1, none, some 2]).direction = specDirection ((2 - 1) / 1 * 100) ∧
    (calculate_trend [some 1, none, some 2]).strength
      = specR2Strength (validPoints [some 1, none, some 2]) :=
  trend_direction_and_r2_strength [some 1, none, some 2] 1 2 (by norm_num) rfl rfl
    (by norm_num)

/-! ### Valid-point structure and affine fits -/

/-- There are at most as many valid points as series entries. -/
theorem validPointsFrom_length_le :
    ∀ (xs : List (Option ℚ)) (i : ℕ), (validPointsFrom i xs).length ≤ xs.length
  | [], _ => le_refl _
  | none :: xs, i =>
    le_trans (validPointsFrom_length_le xs (i + 1)) (Nat.le_succ _)
  | some _ :: xs, i =>
    Nat.succ_le_succ (validPointsFrom_length_le xs (i + 1))

/-- Every valid point extracted from index `i` on has first coordinate at
least `i`. -/
theorem validPointsFrom_fst_ge :
    ∀ (xs : List (Option ℚ)) (i : ℕ) (q : ℚ × ℚ), q ∈ validPointsFrom i xs → (i : ℚ) ≤ q.1 := by
  intro xs
  induction xs with
  | nil => intro i q hq; simp [validPointsFrom] at hq
  | cons x xs ih =>
    intro i q hq
    cases x with
    | none =>
      have := ih (i + 1) q hq
      push_cast at this
      linarith
    | some p =>
      rcases List.mem_cons.1 hq with h | h
      · rw [h]
      · have := ih (i + 1) q h
        push_cast at this
        linarith

/-- The first coordinates of the valid points are strictly increasing. -/
theorem validPointsFrom_pairwise (xs : List (Option ℚ)) :
    ∀ i : ℕ, (validPointsFrom i xs).Pairwise (fun p q => p.1 < q.1) := by
  induction xs with
  | nil => intro i; exact List.Pairwise.nil
  | cons x xs ih =>
    intro i
    cases x with
    | none => exact ih (i + 1)
    | some p =>
      refine List.Pairwise.cons ?_ (ih (i + 1))
      intro q hq
      have := validPointsFrom_fst_ge xs (i + 1) q hq
      push_cast at this
      simp only []
      linarith

/-- Centered cross sum of an affine point list is the slope times the
centered square sum. -/
theorem sum_map_affine_prod (pts : List (ℚ × ℚ)) (b xb yb : ℚ)
    (h : ∀ q ∈ pts, q.2 - yb = b * (q.1 - xb)) :
    (pts.map (fun q => (q.1 - xb) * (q.2 - yb))).sum
      = b * (pts.map (fun q => (q.1 - xb) ^ 2)).sum := by
  induction pts with
  | nil => simp
  | cons q qs ih =>
    simp only [List.map_cons, List.sum_cons]
    rw [h q (List.mem_cons_self q qs), ih (fun r hr => h r (List.mem_cons_of_mem _ hr))]
    ring

/-- Centered square sum of the values of an affine point list is the
squared slope times the centered square sum of the indices. -/
theorem sum_map_affine_sq (pts : List (ℚ × ℚ)) (b xb yb : ℚ)
    (h : ∀ q ∈ pts, q.2 - yb = b * (q.1 - xb)) :
    (pts.map (fun q => (q.2 - yb) ^ 2)).sum
      = b ^ 2 * (pts.map (fun q => (q.1 - xb) ^ 2)).sum := by
  induction pts with
  | nil => simp
  | cons q qs ih =>
    simp only [List.map_cons, List.sum_cons]
    rw [h q (List.mem_cons_self q qs), ih (fun r hr => h r (List.mem_cons_of_mem _ hr))]
    ring

/-- Value sum of an affine point list. -/
theorem sum_map_snd_affine (pts : List (ℚ × ℚ)) (a b : ℚ)
    (h : ∀ q ∈ pts, q.2 = a + b * q.1) :
    (pts.map Prod.snd).sum = a * pts.length + b * (pts.map Prod.fst).sum := by
  induction pts with
  | nil => simp
  | cons q qs ih =>
    simp only [List.map_cons, List.sum_cons, List.length_cons]
    rw [h q (List.mem_cons_self q qs), ih (fun r hr => h r (List.mem_cons_of_mem _ hr))]
    push_cast
    ring

/-- Value mean of a nonempty affine point list. -/
theorem ybar_affine (pts : List (ℚ × ℚ)) (a b : ℚ) (hnz : pts.length ≠ 0)
    (h : ∀ q ∈ pts, q.2 = a + b * q.1) :
    ybarOf pts = a + b * xbarOf pts := by
  have hc : (pts.length : ℚ) ≠ 0 := Nat.cast_ne_zero.2 hnz
  rw [ybarOf, xbarOf, sum_map_snd_affine pts a b h]
  field_simp

/-- An affine point list with nonzero slope and nondegenerate index spread
has a perfect fit: the source strength is exactly 100. -/
theorem affine_lsStrength (pts : List (ℚ × ℚ)) (a b : ℚ) (hb : b ≠ 0)
    (h2 : 2 ≤ pts.length) (hX : sxxOf pts ≠ 0)
    (haff : ∀ q ∈ pts, q.2 = a + b * q.1) : lsStrength pts = 100 := by
  have hnz : pts.length ≠ 0 := by omega
  have hyb : ybarOf pts = a + b * xbarOf pts := ybar_affine pts a b hnz haff
  have hpt : ∀ q ∈ pts, q.2 - ybarOf pts = b * (q.1 - xbarOf pts) := by
    intro q hq
    rw [haff q hq, hyb]
    ring
  have hsxy : sxyOf pts = b * sxxOf pts := by
    rw [sxyOf, sxxOf]
    exact sum_map_affine_prod pts b _ _ hpt
  have hsyy : syyOf pts = b ^ 2 * sxxOf pts := by
    rw [syyOf, sxxOf]
    exact sum_map_affine_sq pts b _ _ hpt
  have hslope : slopeOf pts = b := by
    rw [slopeOf, hsxy, mul_div_assoc, div_self hX, mul_one]
  have hres : ssResOf pts = 0 := by
    rw [ssResOf_expand, hslope, hsxy, hsyy]
    ring
  have hY : syyOf pts ≠ 0 := by
    rw [hsyy]
    exact mul_ne_zero (pow_ne_zero 2 hb) hX
  rw [lsStrength, if_neg (by omega), r2Of, if_pos hY, hres, zero_div]
  norm_num

/-- C4 (amended): a series of length at least 2 whose defined endpoints
show a percentage change above 1 gets direction up (strict monotonicity
alone does not suffice), and a series whose valid points lie exactly on a
line of nonzero slope (an affine series) gets strength exactly 100, which
is above 90. -/
theorem trend_up_and_affine_strength :
    (∀ (prices : List (Option ℚ)) (f l : ℚ),
        2 ≤ prices.length → prices.headI = some f → prices.getLastI = some l →
        f ≠ 0 → 1 < (l - f) / f * 100 →
        (calculate_trend prices).direction = "up") ∧
    (∀ (prices : List (Option ℚ)) (a b : ℚ),
        2 ≤ (validPoints prices).length → b ≠ 0 →
        (∀ q ∈ validPoints prices, q.2 = a + b * q.1) →
        (calculate_trend prices).strength = 100) := by
  constructor
  · intro prices f l hlen hf hl hf0 hchange
    have hnot : ¬ prices.length < 2 := by omega
    simp only [calculate_trend, if_neg hnot, hf, hl]
    simp [PF.ofOpt, PF.sub, PF.add, PF.neg, PF.div, PF.mul, PF.gtB, PF.ltB, hf0,
      ← sub_eq_add_neg, hchange]
  · intro prices a b h2 hb haff
    have hlen : 2 ≤ prices.length := le_trans h2 (validPointsFrom_length_le prices 0)
    have hnot : ¬ prices.length < 2 := by omega
    simp only [calculate_trend, if_neg hnot]
    have hX : sxxOf (validPoints prices) ≠ 0 := by
      obtain ⟨q1, q2, rest, hvp⟩ : ∃ q1 q2 rest, validPoints prices = q1 :: q2 :: rest := by
        rcases hv : validPoints prices with _ | ⟨r1, _ | ⟨r2, rs⟩⟩
        · rw [hv] at h2; simp at h2
        · rw [hv] at h2; simp at h2
        · exact ⟨r1, r2, rs, rfl⟩
      have hq12 : q1.1 < q2.1 := by
        have hp := validPointsFrom_pairwise prices 0
        rw [show validPointsFrom 0 prices = validPoints prices from rfl, hvp] at hp
        exact (List.pairwise_cons.1 hp).1 q2 (List.mem_cons_self q2 rest)
      intro h0
      rw [sxxOf] at h0
      have hdx := sum_map_sq_eq_zero h0
      have e1 := hdx q1 (by rw [hvp]; exact List.mem_cons_self _ _)
      have e2 := hdx q2 (by rw [hvp]; exact List.mem_cons_of_mem _ (List.mem_cons_self _ _))
      have : q1.1 = q2.1 := by linarith [sub_eq_zero.1 e1, sub_eq_zero.1 e2]
      linarith
    exact affine_lsStrength _ a b hb h2 hX haff

/-- Witness for C4 at the affine series 100, 102, ..., 138. -/
theorem trend_up_and_affine_strength_witness :
    (calculate_trend (affineUpSeries.map some)).direction = "up" ∧
    (calculate_trend (affineUpSeries.map some)).strength = 100 :=
  ⟨trend_up_and_affine_strength.1 (affineUpSeries.map some) 100 138
      (by norm_num [affineUpSeries]) rfl rfl (by norm_num) (by norm_num),
   trend_up_and_affine_strength.2 (affineUpSeries.map some) 100 2
      (by norm_num [affineUpSeries, validPoints, validPointsFrom]) (by norm_num)
      (by norm_num [affineUpSeries, validPoints, validPointsFrom])⟩

/-- C4 counterexample: the strictly increasing 20-point series
tinyUpSeries has direction sideways (its overall change is 0.19 percent),
and the strictly increasing 20-point jumpSeries has direction up but
strength about 14.5, far below 90 — so neither conjunct of the original
claim holds for all strictly increasing series of length 20. -/
theorem monotone_series_trend_claim_fails :
    List.Chain' (fun a b : ℚ => a < b) tinyUpSeries ∧ tinyUpSeries.length = 20 ∧
    (calculate_trend (tinyUpSeries.map some)).direction = "sideways" ∧
    List.Chain' (fun a b : ℚ => a < b) jumpSeries ∧ jumpSeries.length = 20 ∧
    (calculate_trend (jumpSeries.map some)).direction = "up" ∧
    (calculate_trend (jumpSeries.map some)).strength < 90 := by
  refine ⟨?_, by norm_num [tinyUpSeries], ?_, ?_, by norm_num [jumpSeries], ?_, ?_⟩
  · norm_num [tinyUpSeries, List.chain'_cons]
  · norm_num [calculate_trend, tinyUpSeries, List.getLastI, PF.ofOpt, PF.sub, PF.add, PF.neg,
      PF.div, PF.mul, PF.gtB, PF.ltB]
  · norm_num [jumpSeries, List.chain'_cons]
  · norm_num [calculate_trend, jumpSeries, List.getLastI, PF.ofOpt, PF.sub, PF.add, PF.neg,
      PF.div, PF.mul, PF.gtB, PF.ltB]
  · norm_num [calculate_trend, jumpSeries, lsStrength, r2Of, ssResOf, slopeOf,
      interceptOf, sxxOf, sxyOf, syyOf, xbarOf, ybarOf, validPoints, validPointsFrom]
    rw [abs_of_nonneg (by norm_num : (0:ℚ) ≤ 101022601 / 698744767)]
    norm_num

/-! ### Volatility -/

/-- With every previous price nonzero, each percentage-return division is
finite. -/
theorem zipWith_pct_fin :
    ∀ (as bs : List ℚ), (∀ b ∈ bs, b ≠ 0) →
      List.zipWith (fun cur prev => PF.div (PF.fin (cur - prev)) (PF.fin prev)) as bs
        = List.zipWith (fun cur prev => PF.fin ((cur - prev) / prev)) as bs
  | [], _, _ => by simp
  | _ :: _, [], _ => by simp
  | a :: as, b :: bs, h => by
    simp only [List.zipWith_cons_cons]
    rw [zipWith_pct_fin as bs (fun x hx => h x (List.mem_cons_of_mem _ hx))]
    have hb : b ≠ 0 := h b (List.mem_cons_self b bs)
    simp [PF.div, hb]

/-- Dropping NaN from a series of finite values changes nothing. -/
theorem dropNaN_zipWith_fin (g : ℚ → ℚ → ℚ) :
    ∀ (as bs : List ℚ),
      dropNaN (List.zipWith (fun a b => PF.fin (g a b)) as bs)
        = List.zipWith (fun a b => PF.fin (g a b)) as bs
  | [], _ => by simp [dropNaN]
  | _ :: _, [] => by simp [dropNaN]
  | a :: as, b :: bs => by
    simp only [List.zipWith_cons_cons, dropNaN, List.filter_cons]
    simpa [dropNaN] using dropNaN_zipWith_fin g as bs

/-- The finite values of a series of finite values. -/
theorem finValsOf_zipWith_fin (g : ℚ → ℚ → ℚ) :
    ∀ (as bs : List ℚ),
      finValsOf (List.zipWith (fun a b => PF.fin (g a b)) as bs) = List.zipWith g as bs
  | [], _ => by simp [finValsOf]
  | _ :: _, [] => by simp [finValsOf]
  | a :: as, b :: bs => by
    simp only [List.zipWith_cons_cons, finValsOf, List.filterMap_cons]
    simpa [finValsOf] using finValsOf_zipWith_fin g as bs

/-- A series of finite values is all-finite. -/
theorem all_isFin_zipWith_fin (g : ℚ → ℚ → ℚ) :
    ∀ (as bs : List ℚ),
      (List.zipWith (fun a b => PF.fin (g a b)) as bs).all PF.isFin = true
  | [], _ => by simp
  | _ :: _, [] => by simp
  | a :: as, b :: bs => by
    simp only [List.zipWith_cons_cons, List.all_cons, all_isFin_zipWith_fin g as bs]
    simp [PF.isFin]

/-- On a series of nonzero prices, the defined percentage returns are
exactly the (finite) pairwise relative changes. -/
theorem dropNaN_pctChange (ps : List ℚ) (hz : ∀ p ∈ ps, p ≠ 0) :
    dropNaN (pctChange ps)
      = List.zipWith (fun cur prev => PF.fin ((cur - prev) / prev)) ps.tail ps := by
  cases ps with
  | nil => rfl
  | cons x xs =>
    simp only [pctChange, List.tail_cons]
    rw [zipWith_pct_fin xs (x :: xs) hz]
    have h1 : dropNaN (PF.nan ::
        List.zipWith (fun cur prev => PF.fin ((cur - prev) / prev)) xs (x :: xs))
        = dropNaN (List.zipWith (fun cur prev => PF.fin ((cur - prev) / prev)) xs (x :: xs)) := by
      simp [dropNaN]
    rw [h1, dropNaN_zipWith_fin]

/-- A series of n points has n - 1 pairwise returns. -/
theorem zipWith_tail_length {β : Type} (g : ℚ → ℚ → β) (ps : List ℚ) :
    (List.zipWith g ps.tail ps).length = ps.length - 1 := by
  rw [List.length_zipWith]
  cases ps <;> simp

/-- On an all-zero price series, every pairwise return is NaN (the 0/0
division). -/
theorem zipWith_pct_zero_replicate :
    ∀ (k m : ℕ),
      List.zipWith (fun cur prev => PF.div (PF.fin (cur - prev)) (PF.fin prev))
          (List.replicate k (0 : ℚ)) (List.replicate m (0 : ℚ))
        = List.replicate (min k m) PF.nan
  | 0, _ => by simp
  | _ + 1, 0 => by simp
  | k + 1, m + 1 => by
    simp only [List.replicate_succ, List.zipWith_cons_cons, zipWith_pct_zero_replicate k m,
      Nat.succ_min_succ]
    simp [PF.div]

/-- On a constant series, every pairwise relative change is 0. -/
theorem zipWith_pct_const_replicate (c : ℚ) :
    ∀ (k m : ℕ),
      List.zipWith (fun cur prev => PF.fin ((cur - prev) / prev))
          (List.replicate k c) (List.replicate m c)
        = List.replicate (min k m) (PF.fin 0)
  | 0, _ => by simp
  | _ + 1, 0 => by simp
  | k + 1, m + 1 => by
    simp only [List.replicate_succ, List.zipWith_cons_cons, zipWith_pct_const_replicate c k m,
      Nat.succ_min_succ]
    simp

/-- Dropping NaN from an all-NaN series leaves nothing. -/
theorem dropNaN_replicate_nan : ∀ m : ℕ, dropNaN (List.replicate m PF.nan) = []
  | 0 => rfl
  | m + 1 => by
    simp only [List.replicate_succ, dropNaN, List.filter_cons]
    simpa [dropNaN] using dropNaN_replicate_nan m

/-- Dropping NaN from a constant finite series changes nothing. -/
theorem dropNaN_replicate_fin (q : ℚ) :
    ∀ m : ℕ, dropNaN (List.replicate m (PF.fin q)) = List.replicate m (PF.fin q)
  | 0 => rfl
  | m + 1 => by
    simp only [List.replicate_succ, dropNaN, List.filter_cons]
    simpa [dropNaN] using dropNaN_replicate_fin q m

/-- The finite values of a constant finite series. -/
theorem finValsOf_replicate_fin (q : ℚ) :
    ∀ m : ℕ, finValsOf (List.replicate m (PF.fin q)) = List.replicate m q
  | 0 => rfl
  | m + 1 => by
    simp only [List.replicate_succ, finValsOf, List.filterMap_cons]
    simpa [finValsOf] using finValsOf_replicate_fin q m

/-- The sample variance of an all-zero list is zero. -/
theorem varQ_replicate_zero (m : ℕ) : varQ 1 (List.replicate m 0) = 0 := by
  simp [varQ, List.map_replicate, List.sum_replicate]

/-- C6 (amended): the volatility is the sample standard deviation of the
defined (dropna) percentage returns times 100, which is the plain
return-series standard deviation whenever all prices are nonzero (a zero
previous price produces an infinite return whose standard deviation is
NaN); a series shorter than 2 points yields exactly 0 and a constant
series of length at least 3 yields exactly 0, but a series with exactly
one defined return (a 2-point series, the constant one included) yields an
undefined (NaN) result, not 0. -/
theorem volatility_edge_cases :
    (∀ ps : List ℚ, ps.length < 2 → calculate_volatility ps = some 0) ∧
    (∀ (c : ℚ) (n : ℕ), 3 ≤ n → calculate_volatility (List.replicate n c) = some 0) ∧
    (∀ a b : ℚ, a ≠ 0 → calculate_volatility [a, b] = none) ∧
    (∀ ps : List ℚ, 3 ≤ ps.length → (∀ p ∈ ps, p ≠ 0) →
        calculate_volatility ps
          = some (Real.sqrt ((varQ 1 (List.zipWith (fun cur prev => (cur - prev) / prev)
              ps.tail ps) : ℚ) : ℝ) * 100)) ∧
    calculate_volatility [0, 5, 10] = none := by
  refine ⟨?_, ?_, ?_, ?_, ?_⟩
  · intro ps h
    rw [calculate_volatility, if_pos h]
  · intro c n h3
    obtain ⟨m, rfl⟩ : ∃ m, n = m + 1 := ⟨n - 1, by omega⟩
    by_cases hc : c = 0
    · subst hc
      have hdrop : dropNaN (pctChange (List.replicate (m + 1) (0 : ℚ))) = [] := by
        rw [List.replicate_succ, pctChange, ← List.replicate_succ,
          zipWith_pct_zero_replicate m (m + 1)]
        have hmin : min m (m + 1) = m := by omega
        rw [hmin]
        have : dropNaN (PF.nan :: List.replicate m PF.nan)
            = dropNaN (List.replicate m PF.nan) := by simp [dropNaN]
        rw [this, dropNaN_replicate_nan]
      rw [calculate_volatility, if_neg (by simp; omega), hdrop]
      simp
    · have hzs : ∀ p ∈ List.replicate (m + 1) c, p ≠ 0 := by
        intro p hp
        rw [List.eq_of_mem_replicate hp]
        exact hc
      have hdrop := dropNaN_pctChange (List.replicate (m + 1) c) hzs
      rw [List.tail_replicate] at hdrop
      simp only [Nat.add_sub_cancel] at hdrop
      rw [zipWith_pct_const_replicate c m (m + 1)] at hdrop
      have hmin : min m (m + 1) = m := by omega
      rw [hmin] at hdrop
      rw [calculate_volatility, if_neg (by simp; omega), hdrop]
      rw [if_neg (by simp; omega)]
      rw [seriesStd, if_neg (by simp; omega)]
      rw [if_pos (by simp [PF.isFin])]
      rw [finValsOf_replicate_fin, varQ_replicate_zero]
      simp
  · intro a b ha
    simp [calculate_volatility, pctChange, dropNaN, seriesStd, PF.div, ha]
  · intro ps h3 hz
    have hret := dropNaN_pctChange ps hz
    have hlen := zipWith_tail_length (fun cur prev => PF.fin ((cur - prev) / prev)) ps
    rw [calculate_volatility, if_neg (by omega), hret, if_neg (by rw [hlen]; omega)]
    rw [seriesStd, if_neg (by rw [hlen]; omega), if_pos (all_isFin_zipWith_fin _ _ _),
      finValsOf_zipWith_fin]
    rfl
  · norm_num [calculate_volatility, pctChange, dropNaN, seriesStd, PF.div, PF.isFin]

/-- Witness for C6 at concrete series. -/
theorem volatility_edge_cases_witness :
    calculate_volatility [5] = some 0 ∧
    calculate_volatility (List.replicate 3 7) = some 0 ∧
    calculate_volatility [4, 5] = none ∧
    calculate_volatility [1, 2, 4]
      = some (Real.sqrt ((varQ 1 (List.zipWith (fun cur prev => (cur - prev) / prev)
          ([1, 2, 4] : List ℚ).tail [1, 2, 4]) : ℚ) : ℝ) * 100) :=
  ⟨volatility_edge_cases.1 [5] (by norm_num),
   volatility_edge_cases.2.1 7 3 (by norm_num),
   volatility_edge_cases.2.2.1 4 5 (by norm_num),
   volatility_edge_cases.2.2.2.1 [1, 2, 4] (by norm_num) (by norm_num)⟩

/-- C6 counterexample: the constant 2-point series 5, 5 yields an
undefined volatility (the sample standard deviation of a single return is
undefined), not the 0 the claim asserts for every constant series. -/
theorem constant_two_point_volatility_not_zero :
    calculate_volatility (List.replicate 2 5) = none ∧ (none : Option ℝ) ≠ some 0 := by
  constructor
  · have h : List.replicate 2 (5 : ℚ) = [5, 5] := rfl
    rw [h]
    norm_num [calculate_volatility, pctChange, dropNaN, seriesStd, PF.div]
  · simp

/-! ### RSI range and undefinedness -/

/-- Length of a rolling mean equals the input length. -/
theorem rollingMeanQ_length (w : ℕ) (xs : List ℚ) :
    (rollingMeanQ w xs).length = xs.length := by
  simp [rollingMeanQ]

/-- Entry of a rolling mean: the full-window average once the window fits,
missing before. -/
theorem rollingMeanQ_get? {w : ℕ} {xs : List ℚ} {i : ℕ} (hi : i < xs.length) :
    (rollingMeanQ w xs).get? i
      = some (if w ≤ i + 1 then some ((trailWindow w i xs).sum / (w : ℚ)) else none) := by
  rw [rollingMeanQ, List.get?_map, List.get?_range hi, Option.map_some']

/-- Window elements come from the series. -/
theorem trailWindow_subset {w i : ℕ} {xs : List ℚ} {x : ℚ} (hx : x ∈ trailWindow w i xs) :
    x ∈ xs :=
  List.drop_subset _ _ (List.take_subset _ _ hx)

/-- A defined rolling-mean value over a nonnegative series is
nonnegative. -/
theorem rollingMeanQ_nonneg {w : ℕ} {xs : List ℚ} {i : ℕ} {q : ℚ}
    (hxs : ∀ x ∈ xs, 0 ≤ x)
    (h : (rollingMeanQ w xs).get? i = some (some q)) : 0 ≤ q := by
  have hi : i < xs.length := by
    have := List.get?_eq_some.1 h |>.1
    rwa [rollingMeanQ_length] at this
  rw [rollingMeanQ_get? hi] at h
  by_cases hw : w ≤ i + 1
  · rw [if_pos hw] at h
    have hq : (trailWindow w i xs).sum / (w : ℚ) = q := by
      have := Option.some_injective _ h
      exact Option.some_injective _ this
    rw [← hq]
    apply div_nonneg
    · exact List.sum_nonneg (fun x hx => hxs x (trailWindow_subset hx))
    · positivity
  · rw [if_neg hw] at h
    simp at h

/-- Gains are nonnegative. -/
theorem gainOf_nonneg (d : List (Option ℚ)) : ∀ x ∈ gainOf d, 0 ≤ x := by
  intro x hx
  simp only [gainOf, List.mem_map] at hx
  obtain ⟨o, _, rfl⟩ := hx
  cases o with
  | none => simp
  | some v =>
    simp only []
    split_ifs with h
    · linarith
    · simp

/-- Losses are nonnegative. -/
theorem lossOf_nonneg (d : List (Option ℚ)) : ∀ x ∈ lossOf d, 0 ≤ x := by
  intro x hx
  simp only [lossOf, List.mem_map] at hx
  obtain ⟨o, _, rfl⟩ := hx
  cases o with
  | none => simp
  | some v =>
    simp only []
    split_ifs with h
    · linarith
    · simp

/-- The RSI formula on a missing loss is NaN. -/
theorem rsiPoint_none_right (g : Option ℚ) : rsiPoint g none = PF.nan := by
  cases g <;> rfl

/-- The RSI formula at zero gain and zero loss is NaN (the 0/0 ratio). -/
theorem rsiPoint_zero_zero : rsiPoint (some 0) (some 0) = PF.nan := by
  simp [rsiPoint, PF.ofOpt, PF.div, PF.add, PF.sub, PF.neg]

/-- The RSI formula at positive gain and zero loss is the defined value
100: the ratio is positive infinity and `100 - 100/(1 + inf)` collapses to
100. -/
theorem rsiPoint_pos_zero (g : ℚ) (hg : 0 < g) : rsiPoint (some g) (some 0) = PF.fin 100 := by
  simp [rsiPoint, PF.ofOpt, PF.div, PF.add, PF.sub, PF.neg, hg.ne', hg]

/-- The RSI formula at nonnegative gain and positive loss is the finite
value `100 - 100/(1 + gain/loss)`, which lies in [0, 100]. -/
theorem rsiPoint_pos (g l : ℚ) (hg : 0 ≤ g) (hl : 0 < l) :
    rsiPoint (some g) (some l) = PF.fin (100 - 100 / (1 + g / l)) ∧
    0 ≤ 100 - 100 / (1 + g / l) ∧ 100 - 100 / (1 + g / l) ≤ 100 := by
  have hrs : 0 ≤ g / l := div_nonneg hg hl.le
  have h1 : (0 : ℚ) < 1 + g / l := by linarith
  refine ⟨?_, ?_, ?_⟩
  · simp [rsiPoint, PF.ofOpt, PF.div, PF.add, PF.sub, PF.neg, hl.ne', h1.ne', sub_eq_add_neg]
  · have : 100 / (1 + g / l) ≤ 100 := by
      calc 100 / (1 + g / l) ≤ 100 / 1 := by
            apply div_le_div_of_nonneg_left (by norm_num) (by norm_num) (by linarith)
        _ = 100 := by norm_num
    linarith
  · have : 0 < 100 / (1 + g / l) := by positivity
    linarith

/-- A finite float value is not NaN. -/
theorem fin_ne_nan (q : ℚ) : PF.fin q ≠ PF.nan := by
  intro h
  exact PF.noConfusion h

/-- C2 (amended): every defined value of either RSI implementation lies in
[0, 100] and is never an infinity; in the autotrader implementation the
value at a post-warm-up index is undefined exactly when the rolling loss
average is zero; but in the analyzer implementation a zero loss with
positive gain yields the defined value 100 (see the counterexample), so
undefinedness there holds only at warm-up indices or when gain and loss
are both zero. -/
theorem oscillator_range_and_zero_loss :
    (∀ (prices : List (Option ℚ)) (period i : ℕ) (pf : PF),
        (calculate_rsi prices period).get? i = some pf →
        pf = PF.nan ∨ ∃ q : ℚ, pf = PF.fin q ∧ 0 ≤ q ∧ q ≤ 100) ∧
    (∀ (prices : List (Option ℚ)) (period i : ℕ) (pf : PF),
        (autotrader_calculate_rsi prices period).get? i = some pf →
        pf = PF.nan ∨ ∃ q : ℚ, pf = PF.fin q ∧ 0 ≤ q ∧ q ≤ 100) ∧
    (∀ (prices : List (Option ℚ)) (period i : ℕ),
        1 ≤ period → period + 1 ≤ prices.length → i < prices.length →
        ((autotrader_calculate_rsi prices period).get? i = some PF.nan ↔
          (i + 1 < period ∨
            (rollingMeanQ period (lossOf (diffO prices))).get? i = some (some 0)))) := by
  refine ⟨?_, ?_, ?_⟩
  · intro prices period i pf h
    rw [calculate_rsi, List.get?_zipWith_eq_some] at h
    obtain ⟨g, l, hg, hl, heq⟩ := h
    cases l with
    | none => left; rw [← heq, rsiPoint_none_right]
    | some lq =>
      cases g with
      | none => left; rw [← heq, rsiPoint_none_left]
      | some gq =>
        have hgq : 0 ≤ gq := rollingMeanQ_nonneg (gainOf_nonneg _) hg
        have hlq : 0 ≤ lq := rollingMeanQ_nonneg (lossOf_nonneg _) hl
        rcases eq_or_lt_of_le hlq with hl0 | hlpos
        · rcases eq_or_lt_of_le hgq with hg0 | hgpos
          · left; rw [← heq, ← hg0, ← hl0, rsiPoint_zero_zero]
          · right
            exact ⟨100, by rw [← heq, ← hl0, rsiPoint_pos_zero gq hgpos], by norm_num,
              le_refl _⟩
        · right
          obtain ⟨hval, hlb, hub⟩ := rsiPoint_pos gq lq hgq hlpos
          exact ⟨_, by rw [← heq, hval], hlb, hub⟩
  · intro prices period i pf h
    rw [autotrader_calculate_rsi] at h
    split at h
    · simp at h
    split at h
    · simp at h
    rw [List.get?_zipWith_eq_some] at h
    obtain ⟨g, lna, hg, hlna, heq⟩ := h
    rw [List.get?_map] at hlna
    obtain ⟨lo, hlo, hf⟩ := Option.map_eq_some'.1 hlna
    cases lo with
    | none =>
      left
      rw [← heq, ← hf]
      simp [zeroToNA, rsiPoint_none_right]
    | some lv =>
      by_cases hlv : lv = 0
      · left
        rw [← heq, ← hf]
        simp [zeroToNA, hlv, rsiPoint_none_right]
      · have hlvnn : 0 ≤ lv := rollingMeanQ_nonneg (lossOf_nonneg _) hlo
        have hlvpos : 0 < lv := lt_of_le_of_ne hlvnn (Ne.symm hlv)
        cases g with
        | none =>
          left
          rw [← heq, ← hf]
          simp [zeroToNA, hlv, rsiPoint_none_left]
        | some gv =>
          have hgv : 0 ≤ gv := rollingMeanQ_nonneg (gainOf_nonneg _) hg
          right
          obtain ⟨hval, hlb, hub⟩ := rsiPoint_pos gv lv hgv hlvpos
          refine ⟨_, ?_, hlb, hub⟩
          rw [← heq, ← hf]
          simp [zeroToNA, hlv, hval]
  · intro prices period i hp hlen hi
    have hgl : (gainOf (diffO prices)).length = prices.length := by
      simp [gainOf, diffO_length]
    have hll : (lossOf (diffO prices)).length = prices.length := by
      simp [lossOf, diffO_length]
    have hig : i < (gainOf (diffO prices)).length := by omega
    have hil : i < (lossOf (diffO prices)).length := by omega
    rw [autotrader_calculate_rsi, if_neg (by omega), if_neg (by omega),
      List.get?_zipWith', rollingMeanQ_get? hig, List.get?_map, rollingMeanQ_get? hil]
    by_cases hw : period ≤ i + 1
    · rw [if_pos hw, if_pos hw]
      set ga := (trailWindow period i (gainOf (diffO prices))).sum / (period : ℚ) with hga
      set la := (trailWindow period i (lossOf (diffO prices))).sum / (period : ℚ) with hla
      have hgann : 0 ≤ ga := by
        rw [hga]
        apply div_nonneg
        · exact List.sum_nonneg (fun x hx => gainOf_nonneg _ x (trailWindow_subset hx))
        · positivity
      have hlann : 0 ≤ la := by
        rw [hla]
        apply div_nonneg
        · exact List.sum_nonneg (fun x hx => lossOf_nonneg _ x (trailWindow_subset hx))
        · positivity
      by_cases hla0 : la = 0
      · simp only [hla0]
        simp [zeroToNA, rsiPoint_none_right, hw]
      · have hlapos : 0 < la := lt_of_le_of_ne hlann (Ne.symm hla0)
        obtain ⟨hval, _, _⟩ := rsiPoint_pos ga la hgann hlapos
        simp [zeroToNA, hla0, hval, fin_ne_nan]
        omega
    · rw [if_neg hw, if_neg hw]
      simp [rsiPoint_none_left, rsiPoint_none_right]
      omega

/-- Witness for C2: the range statements applied at a concrete series and
index, and the zero-loss characterization applied to the series 1, 2, 1, 2
with period 2 at index 2, where the loss average is positive and the value
is the defined 50. -/
theorem oscillator_range_and_zero_loss_witness :
    (PF.fin 100 = PF.nan ∨ ∃ q : ℚ, PF.fin 100 = PF.fin q ∧ 0 ≤ q ∧ q ≤ 100) ∧
    (PF.fin 50 = PF.nan ∨ ∃ q : ℚ, PF.fin 50 = PF.fin q ∧ 0 ≤ q ∧ q ≤ 100) ∧
    ((autotrader_calculate_rsi [some 1, some 2, some 1, some 2] 2).get? 2 = some PF.nan ↔
      (2 + 1 < 2 ∨
        (rollingMeanQ 2 (lossOf (diffO [some 1, some 2, some 1, some 2]))).get? 2
          = some (some 0))) :=
  ⟨oscillator_range_and_zero_loss.1 [some 1, some 2, some 3] 2 1 (PF.fin 100)
      (by norm_num [calculate_rsi, diffO, omSub, gainOf, lossOf, rollingMeanQ, trailWindow,
        rsiPoint, PF.ofOpt, PF.div, PF.add, PF.sub, PF.neg, List.range_succ]),
   oscillator_range_and_zero_loss.2.1 [some 1, some 2, some 1, some 2] 2 2 (PF.fin 50)
      (by norm_num [autotrader_calculate_rsi, zeroToNA, diffO, omSub, gainOf, lossOf,
        rollingMeanQ, trailWindow, rsiPoint, PF.ofOpt, PF.div, PF.add, PF.sub, PF.neg,
        List.range_succ]),
   oscillator_range_and_zero_loss.2.2 [some 1, some 2, some 1, some 2] 2 2
      (by norm_num) (by norm_num) (by norm_num)⟩

/-- C2 counterexample: on the strictly rising series 1, 2, 3 with period
2, the rolling loss average at index 1 is zero, yet the analyzer RSI at
that index is the defined value 100 (the ratio became positive infinity),
not an undefined marker — refuting the claim that the oscillator is
undefined exactly where the loss average is zero. -/
theorem analyzer_rsi_defined_at_zero_loss :
    (rollingMeanQ 2 (lossOf (diffO [some 1, some 2, some 3]))).get? 1 = some (some 0) ∧
    (calculate_rsi [some 1, some 2, some 3] 2).get? 1 = some (PF.fin 100) := by
  constructor
  · norm_num [rollingMeanQ, lossOf, diffO, omSub, trailWindow, List.range_succ]
  · norm_num [calculate_rsi, diffO, omSub, gainOf, lossOf, rollingMeanQ, trailWindow,
      rsiPoint, PF.ofOpt, PF.div, PF.add, PF.sub, PF.neg, List.range_succ]

end TradingCore
